import Mathlib

/-!
# Gaia application core: genesis loading, block lifecycle, staking hooks

A shallow embedding of `cmd/gaia/app/app.go` (the `GaiaApp` block lifecycle,
the genesis initializer and the `StakingHooks` combinator) and of the
slashing-period tracker exercised by `x/slashing/hooks_test.go`.

Conventions of the embedding:

* the store behind `sdk.Context` is an explicit state value threaded through
  every call;
* a Go `panic` is an `Except.error` carrying the `Panic` raised together with
  the state the process had reached when it halted;
* module code that lives outside the embedded files (keepers, handlers,
  codecs) is a field of `Modules`, so every theorem holds for all of them;
* library sorts (`sort.Slice`, `sort.Sort`) are function parameters; what the
  theorems need of their contract is a hypothesis.
-/

namespace Gaia

/-! ## Basic data -/

/-- Byte strings (addresses, encoded transactions, raw JSON). -/
abbrev Bytes := List Nat

/-- An `sdk.AccAddress`. -/
abbrev AccAddress := Bytes

/-- An `sdk.ValAddress`. -/
abbrev ValAddress := Bytes

/-- An `sdk.ConsAddress`. -/
abbrev ConsAddress := Bytes

/-- A coin: denomination and amount. -/
structure Coin where
  denom : String
  amount : Int
deriving DecidableEq, Repr

/-- A key/value pair (`cmn.KVPair`); an `sdk.Tag` is one of these. -/
structure KVPair where
  key : Bytes
  value : Bytes
deriving DecidableEq, Repr

/-- The `sdk.Tags` emitted by a handler. -/
abbrev Tags := List KVPair

/-- The conversion `Tags.ToKVPairs`: a tag list is a list of key/value pairs. -/
def Tags.ToKVPairs (t : Tags) : List KVPair := t

/-- An `abci.ValidatorUpdate`: public key (type and data) and power. -/
structure ValidatorUpdate where
  pubKeyType : String
  pubKeyData : Bytes
  power : Int
deriving DecidableEq, Repr

/-- An entry of `GenesisState.Accounts`. -/
structure GenesisAccount where
  Address : AccAddress
  Coins : List Coin
  Sequence : Int
  AccountNumber : Int
deriving DecidableEq, Repr

/-- An `auth.BaseAccount` as stored by the account keeper. -/
structure Account where
  Address : AccAddress
  Coins : List Coin
  AccountNumber : Int
  Sequence : Int
deriving DecidableEq, Repr

/-- The aggregate `GenesisState`: the account list, one raw section per module
and the bootstrap transactions. -/
structure GenesisState where
  Accounts : List GenesisAccount
  AuthData : Bytes
  StakeData : Bytes
  MintData : Bytes
  DistrData : Bytes
  GovData : Bytes
  SlashingData : Bytes
  GenTxs : List Bytes
deriving DecidableEq, Repr

/-- The read-only part of `sdk.Context` that handlers see: the block header. -/
structure Context where
  BlockHeight : Int
  ChainID : String
deriving DecidableEq, Repr

/-- The `abci.RequestBeginBlock`. -/
structure RequestBeginBlock where
  Hash : Bytes
  Height : Int
  ByzantineValidators : List Bytes
deriving DecidableEq, Repr

/-- The `abci.ResponseBeginBlock`. -/
structure ResponseBeginBlock where
  Tags : List KVPair
deriving DecidableEq, Repr

/-- The `abci.RequestEndBlock`. -/
structure RequestEndBlock where
  Height : Int
deriving DecidableEq, Repr

/-- The `abci.ResponseEndBlock`. -/
structure ResponseEndBlock where
  ValidatorUpdates : List ValidatorUpdate
  Tags : List KVPair
deriving DecidableEq, Repr

/-- The `abci.RequestInitChain`. -/
structure RequestInitChain where
  Validators : List ValidatorUpdate
  AppStateBytes : Bytes
deriving DecidableEq, Repr

/-- The `abci.ResponseInitChain`. -/
structure ResponseInitChain where
  Validators : List ValidatorUpdate
deriving DecidableEq, Repr

/-- The result of `BaseApp.DeliverTx`: code 0 is OK. -/
structure ResponseDeliverTx where
  Code : Nat
  Log : String
deriving DecidableEq, Repr

/-- The test `IsOK` of a delivery result. -/
def ResponseDeliverTx.IsOK (r : ResponseDeliverTx) : Bool := r.Code == 0

/-- The halts of the application, one constructor per `panic` site. -/
inductive Panic where
  /-- `initChainer`: the genesis bytes do not decode. -/
  | genesisParse (err : String)
  /-- `initFromGenesisState`: `stake.InitGenesis` returned an error. -/
  | stakeInitGenesis (err : String)
  /-- `initFromGenesisState`: `GaiaValidateGenesisState` returned an error. -/
  | validateGenesis (err : String)
  /-- `initFromGenesisState`: a bootstrap transaction does not decode. -/
  | genTxUnmarshal (err : String)
  /-- `initFromGenesisState`: a bootstrap transaction was delivered, not OK. -/
  | genTxDeliver (log : String)
  /-- `initChainer`: expected and derived validator counts differ. -/
  | validatorCount (expected derived : Nat)
  /-- `initChainer`: position `i` differs after sorting. -/
  | validatorMismatch (i : Nat)
  /-- Go runtime: slice index out of range. -/
  | indexOutOfRange (i : Nat)
  /-- `assertRuntimeInvariants`: an invariant is broken. -/
  | invariantBroken (err : String)
deriving DecidableEq, Repr

/-- A run from a state: either a value and the state reached, or the halt and
the state at which the process stopped. -/
abbrev Run (σ α : Type) := Except (Panic × σ) (α × σ)

/-! ## The account keeper -/

/-- Modelled from the spec: the account keeper of `x/auth`, which is not among
the embedded files. It holds the global next-account-number counter (account
numbers are monotonic, assigned at creation and never reused, so the counter
is an unbounded integer) and the accounts written so far, oldest first; a read
returns the last write for an address. -/
structure AccountKeeper where
  nextAccountNumber : Int
  written : List Account
deriving DecidableEq, Repr

/-- A fresh account store: counter 0, no account. -/
def AccountKeeper.fresh : AccountKeeper := ⟨0, []⟩

/-- Modelled from the spec: `AccountKeeper.GetNextAccountNumber` returns the
counter and advances it by one. -/
def AccountKeeper.GetNextAccountNumber (k : AccountKeeper) : Int × AccountKeeper :=
  (k.nextAccountNumber, { k with nextAccountNumber := k.nextAccountNumber + 1 })

/-- Modelled from the spec: `AccountKeeper.SetAccount` writes the account under
its address. -/
def AccountKeeper.SetAccount (k : AccountKeeper) (acc : Account) : AccountKeeper :=
  { k with written := k.written ++ [acc] }

/-- Modelled from the spec: `AccountKeeper.GetAccount` reads the account stored
under an address, the most recent write winning. -/
def AccountKeeper.GetAccount (k : AccountKeeper) (addr : AccAddress) : Option Account :=
  k.written.reverse.find? (fun a => a.Address == addr)

/-- The application state: the account store and the state `ρ` owned by the
other keepers. -/
structure AppState (ρ : Type) where
  accountKeeper : AccountKeeper
  rest : ρ
deriving DecidableEq, Repr

/-! ## Library sort on short slices -/

/-- The inner loop of Go's `insertionSort_func`: the element `x` at position
`j` is swapped with its left neighbour while `less x neighbour`. The sorted
prefix is given nearest neighbour first. -/
def sinkLeft {α : Type} (less : α → α → Bool) (x : α) : List α → List α
  | [] => [x]
  | p :: ps => if less x p then p :: sinkLeft less x ps else x :: p :: ps

/-- Go's `insertionSort_func`, the whole of `sort.Slice` on a slice of at most
six elements (longer slices get a gap pass or quicksort first; the library
promises a sorted permutation and no stability). -/
def insertionSort_func {α : Type} (less : α → α → Bool) (l : List α) : List α :=
  (l.foldl (fun acc x => sinkLeft less x acc) []).reverse

/-- The `less` closure that `initFromGenesisState` hands to `sort.Slice`. -/
def accountLess (a b : GenesisAccount) : Bool := decide (a.AccountNumber < b.AccountNumber)

/-- The postcondition of `sort.Slice` with `accountLess`: no later element is
less than an earlier one. -/
def SortedByAccountNumber (l : List GenesisAccount) : Prop :=
  l.Pairwise (fun a b => a.AccountNumber ≤ b.AccountNumber)

instance (l : List GenesisAccount) : Decidable (SortedByAccountNumber l) := by
  unfold SortedByAccountNumber; infer_instance

/-! ## Module code outside the embedded files -/

/-- An `auth.StdTx` as decoded from a bootstrap transaction. -/
structure StdTx where
  payload : Bytes
deriving DecidableEq, Repr

/-- The module and codec functions that `app.go` calls and that live in other
packages or files. Each is a parameter: a handler takes the context and the
state and gives back its result and the new state. `mint.BeginBlocker` and
`distr.BeginBlocker` are called as bare statements, so they hand nothing back
but the state they leave.

Modelled from the spec: `runtimeInvariants` is the read-only invariant checker,
`none` meaning every invariant holds. -/
structure Modules (ρ : Type) where
  mintBeginBlocker : Context → AppState ρ → AppState ρ
  distrBeginBlocker : Context → RequestBeginBlock → AppState ρ → AppState ρ
  slashingBeginBlocker : Context → RequestBeginBlock → AppState ρ → Tags × AppState ρ
  govEndBlocker : Context → AppState ρ → Tags × AppState ρ
  stakeEndBlocker : Context → AppState ρ → (List ValidatorUpdate × Tags) × AppState ρ
  runtimeInvariants : AppState ρ → Option String
  ToAccount : GenesisAccount → Account
  stakeInitGenesis : Context → Bytes → AppState ρ → Except String (List ValidatorUpdate) × AppState ρ
  authInitGenesis : Context → Bytes → AppState ρ → AppState ρ
  slashingInitGenesis : Context → Bytes → Bytes → AppState ρ → AppState ρ
  govInitGenesis : Context → Bytes → AppState ρ → AppState ρ
  mintInitGenesis : Context → Bytes → AppState ρ → AppState ρ
  distrInitGenesis : Context → Bytes → AppState ρ → AppState ρ
  GaiaValidateGenesisState : GenesisState → Option String
  unmarshalGenTx : Bytes → Except String StdTx
  marshalTx : StdTx → Bytes
  DeliverTx : Bytes → AppState ρ → ResponseDeliverTx × AppState ρ
  ApplyAndReturnValidatorSetUpdates : Context → AppState ρ → List ValidatorUpdate × AppState ρ
  unmarshalGenesisState : Bytes → Except String GenesisState

/-- Modelled from the spec: `assertRuntimeInvariants` (its body is in another
file of the package) re-derives the chain-wide invariants from keeper state and
halts the process if one is violated. -/
def assertRuntimeInvariants {ρ : Type} (M : Modules ρ) (s : AppState ρ) : Run (AppState ρ) Unit :=
  match M.runtimeInvariants s with
  | some err => .error (.invariantBroken err, s)
  | none => .ok ((), s)

/-! ## Block lifecycle -/

/-- The method `GaiaApp.BeginBlocker`. -/
def BeginBlocker {ρ : Type} (M : Modules ρ) (ctx : Context) (req : RequestBeginBlock)
    (s : AppState ρ) : ResponseBeginBlock × AppState ρ :=
  -- mint new tokens for the previous block
  let s1 := M.mintBeginBlocker ctx s
  -- distribute rewards for the previous block
  let s2 := M.distrBeginBlocker ctx req s1
  -- slash anyone who double signed
  let r := M.slashingBeginBlocker ctx req s2
  let tags := r.1
  ({ Tags := tags.ToKVPairs }, r.2)

/-- The tags that reach `BeginBlocker` from `mint.BeginBlocker`: the call is a
bare statement and hands nothing back, so the mint handler emits none. -/
def mintBeginBlockerTags : Tags := []

/-- The tags that reach `BeginBlocker` from `distr.BeginBlocker`: the call is a
bare statement and hands nothing back, so the distribution handler emits
none. -/
def distrBeginBlockerTags : Tags := []

/-- The method `GaiaApp.EndBlocker`. -/
def EndBlocker {ρ : Type} (M : Modules ρ) (ctx : Context) (_req : RequestEndBlock)
    (s : AppState ρ) : Run (AppState ρ) ResponseEndBlock :=
  let g := M.govEndBlocker ctx s
  let tags := g.1
  let st := M.stakeEndBlocker ctx g.2
  let validatorUpdates := st.1.1
  let endBlockerTags := st.1.2
  let tags := tags ++ endBlockerTags
  match assertRuntimeInvariants M st.2 with
  | .error e => .error e
  | .ok (_, s3) => .ok ({ ValidatorUpdates := validatorUpdates, Tags := tags }, s3)

/-! ## Genesis initializer -/

/-- The account loop of `initFromGenesisState`: each genesis account, in slice
order, is converted, given the keeper's next account number and written. -/
def loadGenesisAccounts (toAccount : GenesisAccount → Account)
    (accounts : List GenesisAccount) (k : AccountKeeper) : AccountKeeper :=
  accounts.foldl
    (fun k gacc =>
      let acc := toAccount gacc
      let n := k.GetNextAccountNumber
      n.2.SetAccount { acc with AccountNumber := n.1 })
    k

/-- The bootstrap-transaction loop of `initFromGenesisState`. -/
def deliverGenTxs {ρ : Type} (M : Modules ρ) : List Bytes → AppState ρ → Run (AppState ρ) Unit
  | [], s => .ok ((), s)
  | genTx :: rest, s =>
    match M.unmarshalGenTx genTx with
    | .error err => .error (.genTxUnmarshal err, s)
    | .ok tx =>
      let bz := M.marshalTx tx
      let res := M.DeliverTx bz s
      if res.1.IsOK then deliverGenTxs M rest res.2
      else .error (.genTxDeliver res.1.Log, res.2)

/-- The middle of `initFromGenesisState`, from `stake.InitGenesis` to the
validation of the genesis state: it gives the initial validators of the staking
module and the state on which the bootstrap transactions will run. -/
def initModuleStores {ρ : Type} (M : Modules ρ) (ctx : Context) (genesisState : GenesisState)
    (s0 : AppState ρ) : Run (AppState ρ) (List ValidatorUpdate) :=
  -- load the initial stake information
  match M.stakeInitGenesis ctx genesisState.StakeData s0 with
  | (.error err, s1) => .error (.stakeInitGenesis err, s1)
  | (.ok validators, s1) =>
    -- initialize module-specific stores
    let s2 := M.authInitGenesis ctx genesisState.AuthData s1
    let s3 := M.slashingInitGenesis ctx genesisState.SlashingData genesisState.StakeData s2
    let s4 := M.govInitGenesis ctx genesisState.GovData s3
    let s5 := M.mintInitGenesis ctx genesisState.MintData s4
    let s6 := M.distrInitGenesis ctx genesisState.DistrData s5
    -- validate genesis state
    match M.GaiaValidateGenesisState genesisState with
    | some err => .error (.validateGenesis err, s6)
    | none => .ok (validators, s6)

/-- The rest of `initFromGenesisState` once the accounts are loaded: the module
stores, then the bootstrap transactions if there are any. -/
def initFromLoadedAccounts {ρ : Type} (M : Modules ρ) (ctx : Context)
    (genesisState : GenesisState) (s0 : AppState ρ) : Run (AppState ρ) (List ValidatorUpdate) :=
  match initModuleStores M ctx genesisState s0 with
  | .error e => .error e
  | .ok (validators, s6) =>
    if genesisState.GenTxs.length > 0 then
      match deliverGenTxs M genesisState.GenTxs s6 with
      | .error e => .error e
      | .ok (_, s7) => .ok (M.ApplyAndReturnValidatorSetUpdates ctx s7)
    else .ok (validators, s6)

/-- The method `GaiaApp.initFromGenesisState`; `sortSlice` is `sort.Slice`. -/
def initFromGenesisState {ρ : Type} (M : Modules ρ)
    (sortSlice : (GenesisAccount → GenesisAccount → Bool) → List GenesisAccount → List GenesisAccount)
    (ctx : Context) (genesisState : GenesisState) (s : AppState ρ) :
    Run (AppState ρ) (List ValidatorUpdate) :=
  -- sort by account number to maintain consistency (the slice is sorted in place)
  let genesisState := { genesisState with Accounts := sortSlice accountLess genesisState.Accounts }
  -- load the accounts
  let s0 : AppState ρ :=
    { s with accountKeeper := loadGenesisAccounts M.ToAccount genesisState.Accounts s.accountKeeper }
  initFromLoadedAccounts M ctx genesisState s0

/-- The comparison loop of the sanity check in `initChainer`:
`for i, val := range validators` against `req.Validators[i]`. -/
def compareValidators (reqValidators : List ValidatorUpdate) :
    Nat → List ValidatorUpdate → Except Panic Unit
  | _, [] => .ok ()
  | i, val :: rest =>
    match reqValidators[i]? with
    | none => .error (.indexOutOfRange i)
    | some r => if val = r then compareValidators reqValidators (i + 1) rest
                else .error (.validatorMismatch i)

/-- The sanity check of `initChainer`; `sortValidators` is `sort.Sort` on
`abci.ValidatorUpdates`. It gives the validator slice as the check leaves it. -/
def sanityCheck (sortValidators : List ValidatorUpdate → List ValidatorUpdate)
    (reqValidators validators : List ValidatorUpdate) : Except Panic (List ValidatorUpdate) :=
  if reqValidators.length > 0 then
    if reqValidators.length ≠ validators.length then
      .error (.validatorCount reqValidators.length validators.length)
    else
      let reqValidators := sortValidators reqValidators
      let validators := sortValidators validators
      match compareValidators reqValidators 0 validators with
      | .error p => .error p
      | .ok _ => .ok validators
  else .ok validators

/-- The method `GaiaApp.initChainer`. -/
def initChainer {ρ : Type} (M : Modules ρ)
    (sortSlice : (GenesisAccount → GenesisAccount → Bool) → List GenesisAccount → List GenesisAccount)
    (sortValidators : List ValidatorUpdate → List ValidatorUpdate)
    (ctx : Context) (req : RequestInitChain) (s : AppState ρ) :
    Run (AppState ρ) ResponseInitChain :=
  let stateJSON := req.AppStateBytes
  match M.unmarshalGenesisState stateJSON with
  | .error err => .error (.genesisParse err, s)
  | .ok genesisState =>
    match initFromGenesisState M sortSlice ctx genesisState s with
    | .error e => .error e
    | .ok (validators, s1) =>
      -- sanity check
      match sanityCheck sortValidators req.Validators validators with
      | .error p => .error (p, s1)
      | .ok validators =>
        -- assert runtime invariants
        match assertRuntimeInvariants M s1 with
        | .error e => .error e
        | .ok (_, s2) => .ok ({ Validators := validators }, s2)

/-! ## Staking hooks combinator -/

/-- The interface `sdk.StakingHooks`: nine notifications, each acting on the
state behind the context. -/
structure Hooks (σ : Type) where
  PostValidatorCreated : Context → ValAddress → σ → σ
  PostValidatorModified : Context → ValAddress → σ → σ
  PostValidatorRemoved : Context → ConsAddress → ValAddress → σ → σ
  PostValidatorBonded : Context → ConsAddress → ValAddress → σ → σ
  PostValidatorPowerDidChange : Context → ConsAddress → ValAddress → σ → σ
  PostValidatorBeginUnbonding : Context → ConsAddress → ValAddress → σ → σ
  PostDelegationCreated : Context → AccAddress → ValAddress → σ → σ
  PostDelegationSharesModified : Context → AccAddress → ValAddress → σ → σ
  PostDelegationRemoved : Context → AccAddress → ValAddress → σ → σ

/-- The type `StakingHooks`: combined distribution and slashing hooks. -/
structure StakingHooks (σ : Type) where
  dh : Hooks σ
  sh : Hooks σ

/-- The constructor `NewStakingHooks`. -/
def NewStakingHooks {σ : Type} (dh sh : Hooks σ) : StakingHooks σ := ⟨dh, sh⟩

/-- The method `StakingHooks.PostValidatorCreated`. -/
def StakingHooks.PostValidatorCreated {σ : Type} (h : StakingHooks σ) (ctx : Context)
    (valAddr : ValAddress) (s : σ) : σ :=
  let s1 := h.dh.PostValidatorCreated ctx valAddr s
  h.sh.PostValidatorCreated ctx valAddr s1

/-- The method `StakingHooks.PostValidatorModified`. -/
def StakingHooks.PostValidatorModified {σ : Type} (h : StakingHooks σ) (ctx : Context)
    (valAddr : ValAddress) (s : σ) : σ :=
  let s1 := h.dh.PostValidatorModified ctx valAddr s
  h.sh.PostValidatorModified ctx valAddr s1

/-- The method `StakingHooks.PostValidatorRemoved`. -/
def StakingHooks.PostValidatorRemoved {σ : Type} (h : StakingHooks σ) (ctx : Context)
    (consAddr : ConsAddress) (valAddr : ValAddress) (s : σ) : σ :=
  let s1 := h.dh.PostValidatorRemoved ctx consAddr valAddr s
  h.sh.PostValidatorRemoved ctx consAddr valAddr s1

/-- The method `StakingHooks.PostValidatorBonded`. -/
def StakingHooks.PostValidatorBonded {σ : Type} (h : StakingHooks σ) (ctx : Context)
    (consAddr : ConsAddress) (valAddr : ValAddress) (s : σ) : σ :=
  let s1 := h.dh.PostValidatorBonded ctx consAddr valAddr s
  h.sh.PostValidatorBonded ctx consAddr valAddr s1

/-- The method `StakingHooks.PostValidatorPowerDidChange`. -/
def StakingHooks.PostValidatorPowerDidChange {σ : Type} (h : StakingHooks σ) (ctx : Context)
    (consAddr : ConsAddress) (valAddr : ValAddress) (s : σ) : σ :=
  let s1 := h.dh.PostValidatorPowerDidChange ctx consAddr valAddr s
  h.sh.PostValidatorPowerDidChange ctx consAddr valAddr s1

/-- The method `StakingHooks.PostValidatorBeginUnbonding`. -/
def StakingHooks.PostValidatorBeginUnbonding {σ : Type} (h : StakingHooks σ) (ctx : Context)
    (consAddr : ConsAddress) (valAddr : ValAddress) (s : σ) : σ :=
  let s1 := h.dh.PostValidatorBeginUnbonding ctx consAddr valAddr s
  h.sh.PostValidatorBeginUnbonding ctx consAddr valAddr s1

/-- The method `StakingHooks.PostDelegationCreated`. -/
def StakingHooks.PostDelegationCreated {σ : Type} (h : StakingHooks σ) (ctx : Context)
    (delAddr : AccAddress) (valAddr : ValAddress) (s : σ) : σ :=
  let s1 := h.dh.PostDelegationCreated ctx delAddr valAddr s
  h.sh.PostDelegationCreated ctx delAddr valAddr s1

/-- The method `StakingHooks.PostDelegationSharesModified`. -/
def StakingHooks.PostDelegationSharesModified {σ : Type} (h : StakingHooks σ) (ctx : Context)
    (delAddr : AccAddress) (valAddr : ValAddress) (s : σ) : σ :=
  let s1 := h.dh.PostDelegationSharesModified ctx delAddr valAddr s
  h.sh.PostDelegationSharesModified ctx delAddr valAddr s1

/-- The method `StakingHooks.PostDelegationRemoved`. -/
def StakingHooks.PostDelegationRemoved {σ : Type} (h : StakingHooks σ) (ctx : Context)
    (delAddr : AccAddress) (valAddr : ValAddress) (s : σ) : σ :=
  let s1 := h.dh.PostDelegationRemoved ctx delAddr valAddr s
  h.sh.PostDelegationRemoved ctx delAddr valAddr s1

/-- One hook invocation: which of the nine hooks, and its argument tuple. -/
inductive HookCall where
  | PostValidatorCreated (ctx : Context) (valAddr : ValAddress)
  | PostValidatorModified (ctx : Context) (valAddr : ValAddress)
  | PostValidatorRemoved (ctx : Context) (consAddr : ConsAddress) (valAddr : ValAddress)
  | PostValidatorBonded (ctx : Context) (consAddr : ConsAddress) (valAddr : ValAddress)
  | PostValidatorPowerDidChange (ctx : Context) (consAddr : ConsAddress) (valAddr : ValAddress)
  | PostValidatorBeginUnbonding (ctx : Context) (consAddr : ConsAddress) (valAddr : ValAddress)
  | PostDelegationCreated (ctx : Context) (delAddr : AccAddress) (valAddr : ValAddress)
  | PostDelegationSharesModified (ctx : Context) (delAddr : AccAddress) (valAddr : ValAddress)
  | PostDelegationRemoved (ctx : Context) (delAddr : AccAddress) (valAddr : ValAddress)
deriving DecidableEq, Repr

/-- Making the invocation `c` on a hook implementation. -/
def Hooks.call {σ : Type} (h : Hooks σ) : HookCall → σ → σ
  | .PostValidatorCreated ctx v => h.PostValidatorCreated ctx v
  | .PostValidatorModified ctx v => h.PostValidatorModified ctx v
  | .PostValidatorRemoved ctx c v => h.PostValidatorRemoved ctx c v
  | .PostValidatorBonded ctx c v => h.PostValidatorBonded ctx c v
  | .PostValidatorPowerDidChange ctx c v => h.PostValidatorPowerDidChange ctx c v
  | .PostValidatorBeginUnbonding ctx c v => h.PostValidatorBeginUnbonding ctx c v
  | .PostDelegationCreated ctx d v => h.PostDelegationCreated ctx d v
  | .PostDelegationSharesModified ctx d v => h.PostDelegationSharesModified ctx d v
  | .PostDelegationRemoved ctx d v => h.PostDelegationRemoved ctx d v

/-- Making the invocation `c` on the combinator. -/
def StakingHooks.call {σ : Type} (h : StakingHooks σ) : HookCall → σ → σ
  | .PostValidatorCreated ctx v => h.PostValidatorCreated ctx v
  | .PostValidatorModified ctx v => h.PostValidatorModified ctx v
  | .PostValidatorRemoved ctx c v => h.PostValidatorRemoved ctx c v
  | .PostValidatorBonded ctx c v => h.PostValidatorBonded ctx c v
  | .PostValidatorPowerDidChange ctx c v => h.PostValidatorPowerDidChange ctx c v
  | .PostValidatorBeginUnbonding ctx c v => h.PostValidatorBeginUnbonding ctx c v
  | .PostDelegationCreated ctx d v => h.PostDelegationCreated ctx d v
  | .PostDelegationSharesModified ctx d v => h.PostDelegationSharesModified ctx d v
  | .PostDelegationRemoved ctx d v => h.PostDelegationRemoved ctx d v

/-- The two keepers whose hooks `NewGaiaApp` registers. -/
inductive SubHook where
  | distribution
  | slashing
deriving DecidableEq, Repr

/-- A hook implementation that only records, in call order, each invocation it
receives, tagged with the keeper `m` it stands for. -/
def recordingHooks (m : SubHook) : Hooks (List (SubHook × HookCall)) where
  PostValidatorCreated ctx v log := log ++ [(m, .PostValidatorCreated ctx v)]
  PostValidatorModified ctx v log := log ++ [(m, .PostValidatorModified ctx v)]
  PostValidatorRemoved ctx c v log := log ++ [(m, .PostValidatorRemoved ctx c v)]
  PostValidatorBonded ctx c v log := log ++ [(m, .PostValidatorBonded ctx c v)]
  PostValidatorPowerDidChange ctx c v log := log ++ [(m, .PostValidatorPowerDidChange ctx c v)]
  PostValidatorBeginUnbonding ctx c v log := log ++ [(m, .PostValidatorBeginUnbonding ctx c v)]
  PostDelegationCreated ctx d v log := log ++ [(m, .PostDelegationCreated ctx d v)]
  PostDelegationSharesModified ctx d v log := log ++ [(m, .PostDelegationSharesModified ctx d v)]
  PostDelegationRemoved ctx d v log := log ++ [(m, .PostDelegationRemoved ctx d v)]

/-- The hooks as `NewGaiaApp` registers them on the staking keeper:
`NewStakingHooks(app.distrKeeper.Hooks(), app.slashingKeeper.Hooks())`, with
recording keepers. -/
def registeredRecordingHooks : StakingHooks (List (SubHook × HookCall)) :=
  NewStakingHooks (recordingHooks .distribution) (recordingHooks .slashing)

/-! ## Validator slashing-period tracker -/

/-- The record `ValidatorSlashingPeriod` as the hook tests build it: validator
address, start height, end height (0 while the period is open) and the fraction
slashed so far (an `sdk.Dec`, here its underlying integer; `ZeroDec` is 0). -/
structure ValidatorSlashingPeriod where
  ValidatorAddr : ConsAddress
  StartHeight : Int
  EndHeight : Int
  SlashedSoFar : Int
deriving DecidableEq, Repr

/-- Modelled from the spec: the tracker state of the slashing keeper, an
append-only log of bonding periods (the keeper itself is not among the embedded
files). -/
abbrev SlashingPeriods := List ValidatorSlashingPeriod

/-- A period is open while its end height is 0. -/
def ValidatorSlashingPeriod.isOpen (p : ValidatorSlashingPeriod) : Bool := p.EndHeight == 0

/-- Setting the end of every open period of `validator` to `height`. -/
def closeOpenPeriods (validator : ConsAddress) (height : Int) (t : SlashingPeriods) :
    SlashingPeriods :=
  t.map (fun p => if p.ValidatorAddr = validator ∧ p.isOpen = true
                  then { p with EndHeight := height } else p)

/-- Modelled from the spec: `openPeriod(validator, height)` creates a new open
period, closing any existing open period for that validator at `height`. -/
def openPeriod (validator : ConsAddress) (height : Int) (t : SlashingPeriods) : SlashingPeriods :=
  closeOpenPeriods validator height t ++ [⟨validator, height, 0, 0⟩]

/-- Modelled from the spec: `closePeriod(validator, height)` sets the open
period's end to `height`. -/
def closePeriod (validator : ConsAddress) (height : Int) (t : SlashingPeriods) : SlashingPeriods :=
  closeOpenPeriods validator height t

/-- Whether a period covers a height: it starts at or before it, and its end
is open or after it. -/
def ValidatorSlashingPeriod.covers (p : ValidatorSlashingPeriod) (height : Int) : Bool :=
  decide (p.StartHeight ≤ height) && (p.isOpen || decide (p.EndHeight > height))

/-- Modelled from the spec: `periodAt(validator, height)` in the end-exclusive
reading of the spec's words: it scans the periods of the validator in
descending start-height order and returns the first whose start is at most
`height` and whose end is either open or greater than `height`; `none` is the
"no period" result. -/
def periodAt (validator : ConsAddress) (height : Int) (t : SlashingPeriods) :
    Option ValidatorSlashingPeriod :=
  let own := t.filter (fun p => p.ValidatorAddr == validator)
  let descending := own.insertionSort (fun a b => a.StartHeight ≥ b.StartHeight)
  descending.find? (fun p => p.covers height)

/-- Modelled from the spec: the keeper's `postValidatorBonded` opens a period
at the block height of the context. -/
def postValidatorBonded (ctx : Context) (address : ConsAddress) (_valAddr : ValAddress)
    (t : SlashingPeriods) : SlashingPeriods :=
  openPeriod address ctx.BlockHeight t

/-- Modelled from the spec: the keeper's `postValidatorBeginUnbonding` closes
the open period at the block height of the context. -/
def postValidatorBeginUnbonding (ctx : Context) (address : ConsAddress) (_valAddr : ValAddress)
    (t : SlashingPeriods) : SlashingPeriods :=
  closePeriod address ctx.BlockHeight t

/-- Modelled from the spec: the keeper's `getValidatorSlashingPeriodForHeight`
(the keeper is not among the embedded files) scans the periods of the validator
in descending start-height order and returns the first whose start is at most
`height`; `none` is the "no period" result. The end test of `periodAt` is not
part of it: `TestHookOnValidatorBeginUnbonding` closes a period at the height
it was opened at and requires the query at that very height to return the
closed period, which an end-exclusive query cannot do. -/
def getValidatorSlashingPeriodForHeight (_ctx : Context) (address : ConsAddress) (height : Int)
    (t : SlashingPeriods) : Option ValidatorSlashingPeriod :=
  let own := t.filter (fun p => p.ValidatorAddr == address)
  let descending := own.insertionSort (fun a b => a.StartHeight ≥ b.StartHeight)
  descending.find? (fun p => decide (p.StartHeight ≤ height))

/-! ## A recording instance of the module code -/

/-- One call into module code, as the recording modules log it. -/
inductive HandlerCall where
  | mintBeginBlocker (ctx : Context)
  | distrBeginBlocker (ctx : Context) (req : RequestBeginBlock)
  | slashingBeginBlocker (ctx : Context) (req : RequestBeginBlock)
  | govEndBlocker (ctx : Context)
  | stakeEndBlocker (ctx : Context)
  | stakeInitGenesis (data : Bytes)
  | authInitGenesis (data : Bytes)
  | slashingInitGenesis (data stakeData : Bytes)
  | govInitGenesis (data : Bytes)
  | mintInitGenesis (data : Bytes)
  | distrInitGenesis (data : Bytes)
  | DeliverTx (bz : Bytes)
  | ApplyAndReturnValidatorSetUpdates
deriving DecidableEq, Repr

/-- Appending a call to the log kept in the module part of the state. -/
def logCall (c : HandlerCall) (s : AppState (List HandlerCall)) : AppState (List HandlerCall) :=
  { s with rest := s.rest ++ [c] }

/-- The tag the recording slashing handler emits. -/
def slashingTag : KVPair := ⟨[115], [3]⟩

/-- The tag the recording governance handler emits. -/
def govTag : KVPair := ⟨[103], [4]⟩

/-- The tag the recording staking handler emits. -/
def stakeTag : KVPair := ⟨[116], [5]⟩

/-- A concrete instance of the module code: every handler logs its call and,
where it has tags to return, emits one tag of its own; a bootstrap transaction
decodes unless it is empty
and is delivered OK unless its first byte is 0; the invariant is that the
account counter is not behind the number of accounts written. -/
def recordingModules : Modules (List HandlerCall) where
  mintBeginBlocker ctx s := logCall (.mintBeginBlocker ctx) s
  distrBeginBlocker ctx req s := logCall (.distrBeginBlocker ctx req) s
  slashingBeginBlocker ctx req s := ([slashingTag], logCall (.slashingBeginBlocker ctx req) s)
  govEndBlocker ctx s := ([govTag], logCall (.govEndBlocker ctx) s)
  stakeEndBlocker ctx s := (([⟨"ed25519", [7], 10⟩], [stakeTag]), logCall (.stakeEndBlocker ctx) s)
  runtimeInvariants s :=
    if s.accountKeeper.nextAccountNumber < s.accountKeeper.written.length
    then some "account number behind the accounts written" else none
  ToAccount g := ⟨g.Address, g.Coins, g.AccountNumber, g.Sequence⟩
  stakeInitGenesis _ data s :=
    if data = [] then (.error "no stake data", s)
    else (.ok [⟨"ed25519", data, 1⟩], logCall (.stakeInitGenesis data) s)
  authInitGenesis _ data s := logCall (.authInitGenesis data) s
  slashingInitGenesis _ data stakeData s := logCall (.slashingInitGenesis data stakeData) s
  govInitGenesis _ data s := logCall (.govInitGenesis data) s
  mintInitGenesis _ data s := logCall (.mintInitGenesis data) s
  distrInitGenesis _ data s := logCall (.distrInitGenesis data) s
  GaiaValidateGenesisState g :=
    if (g.Accounts.map (fun a => a.Address)).Nodup then none else some "duplicate account"
  unmarshalGenTx bz := if bz = [] then .error "empty transaction" else .ok ⟨bz⟩
  marshalTx tx := tx.payload
  DeliverTx bz s :=
    (if bz.head? = some 0 then ⟨1, "rejected"⟩ else ⟨0, ""⟩, logCall (.DeliverTx bz) s)
  ApplyAndReturnValidatorSetUpdates _ s :=
    ([⟨"ed25519", [9], s.rest.length⟩], logCall .ApplyAndReturnValidatorSetUpdates s)
  unmarshalGenesisState bz :=
    if bz = [] then .error "empty genesis"
    else .ok ⟨[⟨[1], [], 0, 5⟩, ⟨[2], [], 0, 2⟩], [], bz, [], [], [], [], []⟩

/-- A fresh application state for the recording modules. -/
def freshState : AppState (List HandlerCall) := ⟨AccountKeeper.fresh, []⟩

/-- A context at height 1. -/
def ctx1 : Context := ⟨1, "gaia"⟩

/-- The state a run ends in, whether it returned or halted. -/
def Run.finalState {σ α : Type} : Run σ α → σ
  | .ok (_, s) => s
  | .error (_, s) => s

/-- The account number stored for an address, if an account is stored. -/
def assignedAccountNumber {ρ : Type} (addr : AccAddress) (s : AppState ρ) : Option Int :=
  (s.accountKeeper.GetAccount addr).map (fun a => a.AccountNumber)

/-- The accounts the loop writes for a slice: the one at position `i` is the
converted account with account number `n0 + i`. -/
def numberedAccounts (toAccount : GenesisAccount → Account) (n0 : Int)
    (accounts : List GenesisAccount) : List Account :=
  accounts.enum.map (fun p => { toAccount p.2 with AccountNumber := n0 + p.1 })

/-- The canonical order of `abci.ValidatorUpdates` used with the recording
modules, the library's `Less`: `bytes.Compare` of the public key bytes is at
most 0, so equal keys count as less. -/
def validatorLess (a b : ValidatorUpdate) : Bool := decide (a.pubKeyData ≤ b.pubKeyData)

/-- The genesis state of the second end-to-end scenario: two accounts declared
with account numbers 5 and 2, in that textual order. -/
def genesisFiveTwo : GenesisState :=
  ⟨[⟨[1], [], 0, 5⟩, ⟨[2], [], 0, 2⟩], [], [3], [], [], [], [], []⟩

/-- A genesis state with two accounts that declare the same account number 0,
the account at address `[1]` first. -/
def genesisTieAB : GenesisState :=
  ⟨[⟨[1], [], 0, 0⟩, ⟨[2], [], 0, 0⟩], [], [3], [], [], [], [], []⟩

/-- The genesis state `genesisTieAB` with its two accounts in the other textual
order. -/
def genesisTieBA : GenesisState :=
  ⟨[⟨[2], [], 0, 0⟩, ⟨[1], [], 0, 0⟩], [], [3], [], [], [], [], []⟩

/-- The genesis state `genesisFiveTwo` with its two accounts in the other
textual order. -/
def genesisTwoFive : GenesisState :=
  ⟨[⟨[2], [], 0, 2⟩, ⟨[1], [], 0, 5⟩], [], [3], [], [], [], [], []⟩

/-- A genesis state with three bootstrap transactions, the second of which the
recording modules deliver with a result that is not OK. -/
def genesisRejectedTx : GenesisState :=
  ⟨[], [], [3], [], [], [], [], [[1], [0, 5], [2]]⟩

/-- A genesis state with three bootstrap transactions, the second of which
does not decode. -/
def genesisUndecodableTx : GenesisState :=
  ⟨[], [], [3], [], [], [], [], [[1], [], [2]]⟩

/-- The log of the recording modules once the module stores are initialized
from stake data `[3]`. -/
def storesLog : List HandlerCall :=
  [.stakeInitGenesis [3], .authInitGenesis [], .slashingInitGenesis [] [3], .govInitGenesis [],
    .mintInitGenesis [], .distrInitGenesis []]

/-- The state the recording modules reach from `freshState` when the genesis
bytes `[3]` are initialized: the two decoded accounts loaded, the stores set. -/
def initializedState : AppState (List HandlerCall) :=
  ⟨⟨2, [⟨[2], [], 0, 0⟩, ⟨[1], [], 1, 0⟩]⟩, storesLog⟩

/-- The validator the recording staking module derives from stake data `[3]`. -/
def derivedValidator : ValidatorUpdate := ⟨"ed25519", [3], 1⟩

/-- An `InitChain` request whose expected validators are the derived ones. -/
def requestMatching : RequestInitChain := ⟨[derivedValidator], [3]⟩

/-- An `InitChain` request expecting another validator than the derived one. -/
def requestMismatching : RequestInitChain := ⟨[⟨"ed25519", [4], 1⟩], [3]⟩

/-- An `InitChain` request expecting two validators where one is derived. -/
def requestTooMany : RequestInitChain := ⟨[derivedValidator, ⟨"ed25519", [4], 1⟩], [3]⟩

/-- The genesis state the recording codec decodes from the bytes `[3]`. -/
def decodedGenesis : GenesisState :=
  ⟨[⟨[1], [], 0, 5⟩, ⟨[2], [], 0, 2⟩], [], [3], [], [], [], [], []⟩

/-- A state whose bookkeeping is corrupted for the recording invariant: one
account is written although the account counter is still 0. -/
def corruptedState : AppState (List HandlerCall) :=
  ⟨⟨0, [⟨[1], [], 0, 0⟩]⟩, []⟩

/-- A begin-block request at height 1. -/
def beginBlock1 : RequestBeginBlock := ⟨[], 1, []⟩

/-- A context at height 5. -/
def ctx5 : Context := ⟨5, "gaia"⟩

/-- A context at height 10. -/
def ctx10 : Context := ⟨10, "gaia"⟩

/-- A context at height 50. -/
def ctx50 : Context := ⟨50, "gaia"⟩

/-- A tracker holding one closed period of another validator. -/
def otherValidatorPeriods : SlashingPeriods := [⟨[2], 3, 8, 0⟩]

/-! ## Genesis account numbering -/

theorem loadGenesisAccounts_enumFrom (toAccount : GenesisAccount → Account) (n0 : Int) :
    ∀ (l : List GenesisAccount) (k : AccountKeeper) (m : Nat),
      k.nextAccountNumber = n0 + m →
      loadGenesisAccounts toAccount l k =
        ⟨k.nextAccountNumber + l.length,
          k.written ++ (l.enumFrom m).map
            (fun p => { toAccount p.2 with AccountNumber := n0 + p.1 })⟩ := by
  intro l
  induction l with
  | nil => intro k m _; simp [loadGenesisAccounts]
  | cons g gs ih =>
    intro k m hk
    have step : loadGenesisAccounts toAccount (g :: gs) k =
        loadGenesisAccounts toAccount gs
          ⟨k.nextAccountNumber + 1,
            k.written ++ [{ toAccount g with AccountNumber := k.nextAccountNumber }]⟩ := by
      simp [loadGenesisAccounts, AccountKeeper.GetNextAccountNumber, AccountKeeper.SetAccount]
    rw [step, ih _ (m + 1) (by simp [hk]; ring)]
    simp only [List.length_cons, List.enumFrom_cons, List.map_cons, List.append_assoc,
      List.singleton_append, hk]
    congr 1
    push_cast
    ring

theorem loadGenesisAccounts_eq (toAccount : GenesisAccount → Account)
    (l : List GenesisAccount) (k : AccountKeeper) :
    loadGenesisAccounts toAccount l k =
      ⟨k.nextAccountNumber + l.length,
        k.written ++ numberedAccounts toAccount k.nextAccountNumber l⟩ := by
  have h := loadGenesisAccounts_enumFrom toAccount k.nextAccountNumber l k 0 (by simp)
  simpa [numberedAccounts, List.enum] using h

theorem numberedAccounts_getElem? (toAccount : GenesisAccount → Account) (n0 : Int)
    (l : List GenesisAccount) (i : Nat) :
    (numberedAccounts toAccount n0 l)[i]? =
      (l[i]?).map (fun g => { toAccount g with AccountNumber := n0 + i }) := by
  simp only [numberedAccounts, List.getElem?_map, List.enum, List.getElem?_enumFrom]
  cases l[i]? <;> simp

/-- Two slices that are permutations of each other, both sorted by declared
account number, are equal when the declared numbers are pairwise distinct. -/
theorem sorted_accounts_unique {l1 l2 : List GenesisAccount} (hp : l1.Perm l2)
    (hnd : (l1.map (fun a => a.AccountNumber)).Nodup)
    (h1 : SortedByAccountNumber l1) (h2 : SortedByAccountNumber l2) : l1 = l2 := by
  have hnd2 : (l2.map (fun a => a.AccountNumber)).Nodup := (hp.map _).nodup_iff.mp hnd
  have strict : ∀ l : List GenesisAccount, SortedByAccountNumber l →
      (l.map (fun a => a.AccountNumber)).Nodup →
      l.Pairwise (fun a b => a.AccountNumber < b.AccountNumber) := by
    intro l hs hn
    rw [List.Nodup, List.pairwise_map] at hn
    exact (hs.and hn).imp (fun h => lt_of_le_of_ne h.1 h.2)
  haveI : IsAntisymm GenesisAccount (fun a b => a.AccountNumber < b.AccountNumber) :=
    ⟨fun a b hab hba => absurd hab (not_lt.mpr hba.le)⟩
  exact List.eq_of_perm_of_sorted hp (strict l1 h1 hnd) (strict l2 h2 hnd2)

/-- C2: `initFromGenesisState` writes the genesis accounts in the order
`sort.Slice` leaves them, which is ascending in the declared account number
and a permutation of the genesis list, and the account at position `i` of that
order is written with account number `n0 + i`, where `n0` is the keeper's next
account number before the call; the declared number is overwritten. The rest of
the initialization runs on the store so loaded. -/
theorem initFromGenesisState_numbers_accounts {ρ : Type} (M : Modules ρ)
    (sortSlice : (GenesisAccount → GenesisAccount → Bool) → List GenesisAccount → List GenesisAccount)
    (ctx : Context) (gs : GenesisState) (s : AppState ρ)
    (hperm : (sortSlice accountLess gs.Accounts).Perm gs.Accounts)
    (hsorted : SortedByAccountNumber (sortSlice accountLess gs.Accounts)) :
    (sortSlice accountLess gs.Accounts).Perm gs.Accounts ∧
    SortedByAccountNumber (sortSlice accountLess gs.Accounts) ∧
    (∃ W : List Account,
      W.length = gs.Accounts.length ∧
      (∀ (i : Nat) (g : GenesisAccount), (sortSlice accountLess gs.Accounts)[i]? = some g →
        W[i]? = some { M.ToAccount g with
                       AccountNumber := s.accountKeeper.nextAccountNumber + i }) ∧
      loadGenesisAccounts M.ToAccount (sortSlice accountLess gs.Accounts) s.accountKeeper =
        ⟨s.accountKeeper.nextAccountNumber + gs.Accounts.length, s.accountKeeper.written ++ W⟩ ∧
      initFromGenesisState M sortSlice ctx gs s =
        initFromLoadedAccounts M ctx
          { gs with Accounts := sortSlice accountLess gs.Accounts }
          { s with accountKeeper :=
              ⟨s.accountKeeper.nextAccountNumber + gs.Accounts.length,
                s.accountKeeper.written ++ W⟩ }) := by
  refine ⟨hperm, hsorted,
    numberedAccounts M.ToAccount s.accountKeeper.nextAccountNumber
      (sortSlice accountLess gs.Accounts), ?_, ?_, ?_, ?_⟩
  · simp [numberedAccounts, hperm.length_eq]
  · intro i g hg
    rw [numberedAccounts_getElem?, hg]
    rfl
  · rw [loadGenesisAccounts_eq, hperm.length_eq]
  · unfold initFromGenesisState
    simp only [loadGenesisAccounts_eq, hperm.length_eq]

/-- C2 at the scenario of the spec: declared 5 and 2 in that order, fresh
store; the account declared 2 is numbered 0 and the one declared 5 is
numbered 1. -/
theorem initFromGenesisState_numbers_accounts_witness :
    ((insertionSort_func accountLess genesisFiveTwo.Accounts).Perm genesisFiveTwo.Accounts ∧
      SortedByAccountNumber (insertionSort_func accountLess genesisFiveTwo.Accounts)) ∧
    ((insertionSort_func accountLess genesisFiveTwo.Accounts).Perm genesisFiveTwo.Accounts ∧
    SortedByAccountNumber (insertionSort_func accountLess genesisFiveTwo.Accounts) ∧
    (∃ W : List Account,
      W.length = genesisFiveTwo.Accounts.length ∧
      (∀ (i : Nat) (g : GenesisAccount),
        (insertionSort_func accountLess genesisFiveTwo.Accounts)[i]? = some g →
        W[i]? = some { recordingModules.ToAccount g with
                       AccountNumber := freshState.accountKeeper.nextAccountNumber + i }) ∧
      loadGenesisAccounts recordingModules.ToAccount
          (insertionSort_func accountLess genesisFiveTwo.Accounts) freshState.accountKeeper =
        ⟨freshState.accountKeeper.nextAccountNumber + genesisFiveTwo.Accounts.length,
          freshState.accountKeeper.written ++ W⟩ ∧
      initFromGenesisState recordingModules insertionSort_func ctx1 genesisFiveTwo freshState =
        initFromLoadedAccounts recordingModules ctx1
          { genesisFiveTwo with
            Accounts := insertionSort_func accountLess genesisFiveTwo.Accounts }
          { freshState with accountKeeper :=
              ⟨freshState.accountKeeper.nextAccountNumber + genesisFiveTwo.Accounts.length,
                freshState.accountKeeper.written ++ W⟩ })) ∧
    assignedAccountNumber [2]
      (Run.finalState
        (initFromGenesisState recordingModules insertionSort_func ctx1 genesisFiveTwo freshState))
      = some 0 ∧
    assignedAccountNumber [1]
      (Run.finalState
        (initFromGenesisState recordingModules insertionSort_func ctx1 genesisFiveTwo freshState))
      = some 1 :=
  ⟨⟨by decide, by decide⟩,
    initFromGenesisState_numbers_accounts recordingModules insertionSort_func ctx1
      genesisFiveTwo freshState (by decide) (by decide),
    by rfl, by rfl⟩

/-- C1, as stated, fails: two accounts that declare the same account number
are numbered in their textual order, so permuting them swaps their assigned
numbers. Here `sort.Slice` on a two-element slice is the library's insertion
sort, which leaves equal neighbours in place. -/
theorem genesis_numbering_depends_on_order_of_ties :
    genesisTieAB.Accounts.Perm genesisTieBA.Accounts ∧
    assignedAccountNumber [1]
      (Run.finalState
        (initFromGenesisState recordingModules insertionSort_func ctx1 genesisTieAB freshState))
      = some 0 ∧
    assignedAccountNumber [1]
      (Run.finalState
        (initFromGenesisState recordingModules insertionSort_func ctx1 genesisTieBA freshState))
      = some 1 :=
  ⟨by decide, by rfl, by rfl⟩

/-- C1, amended: when the declared account numbers of the genesis accounts are
pairwise distinct, any permutation of the account list gives the same sorted
slice, the same account store after loading (so every account is assigned the
same number) and the same result of `initFromGenesisState`. -/
theorem genesis_numbering_order_independent {ρ : Type} (M : Modules ρ)
    (sortSlice : (GenesisAccount → GenesisAccount → Bool) → List GenesisAccount → List GenesisAccount)
    (ctx : Context) (gs : GenesisState) (permuted : List GenesisAccount) (s : AppState ρ)
    (hperm : gs.Accounts.Perm permuted)
    (hdistinct : (gs.Accounts.map (fun a => a.AccountNumber)).Nodup)
    (hp1 : (sortSlice accountLess gs.Accounts).Perm gs.Accounts)
    (hs1 : SortedByAccountNumber (sortSlice accountLess gs.Accounts))
    (hp2 : (sortSlice accountLess permuted).Perm permuted)
    (hs2 : SortedByAccountNumber (sortSlice accountLess permuted)) :
    loadGenesisAccounts M.ToAccount (sortSlice accountLess gs.Accounts) s.accountKeeper =
      loadGenesisAccounts M.ToAccount (sortSlice accountLess permuted) s.accountKeeper ∧
    (∀ addr : AccAddress,
      (loadGenesisAccounts M.ToAccount (sortSlice accountLess gs.Accounts)
          s.accountKeeper).GetAccount addr =
      (loadGenesisAccounts M.ToAccount (sortSlice accountLess permuted)
          s.accountKeeper).GetAccount addr) ∧
    initFromGenesisState M sortSlice ctx gs s =
      initFromGenesisState M sortSlice ctx { gs with Accounts := permuted } s := by
  have hsame : sortSlice accountLess gs.Accounts = sortSlice accountLess permuted := by
    apply sorted_accounts_unique ((hp1.trans hperm).trans hp2.symm) _ hs1 hs2
    exact (hp1.map _).nodup_iff.mpr hdistinct
  refine ⟨by rw [hsame], fun addr => by rw [hsame], ?_⟩
  unfold initFromGenesisState
  simp only [hsame]

/-- C1 amended, at the accounts declared 5 and 2 and their swap. -/
theorem genesis_numbering_order_independent_witness :
    (genesisFiveTwo.Accounts.Perm genesisTwoFive.Accounts ∧
      (genesisFiveTwo.Accounts.map (fun a => a.AccountNumber)).Nodup) ∧
    (loadGenesisAccounts recordingModules.ToAccount
        (insertionSort_func accountLess genesisFiveTwo.Accounts) freshState.accountKeeper =
      loadGenesisAccounts recordingModules.ToAccount
        (insertionSort_func accountLess genesisTwoFive.Accounts) freshState.accountKeeper ∧
    (∀ addr : AccAddress,
      (loadGenesisAccounts recordingModules.ToAccount
          (insertionSort_func accountLess genesisFiveTwo.Accounts)
          freshState.accountKeeper).GetAccount addr =
      (loadGenesisAccounts recordingModules.ToAccount
          (insertionSort_func accountLess genesisTwoFive.Accounts)
          freshState.accountKeeper).GetAccount addr) ∧
    initFromGenesisState recordingModules insertionSort_func ctx1 genesisFiveTwo freshState =
      initFromGenesisState recordingModules insertionSort_func ctx1
        { genesisFiveTwo with Accounts := genesisTwoFive.Accounts } freshState) :=
  ⟨⟨by decide, by decide⟩,
    genesis_numbering_order_independent recordingModules insertionSort_func ctx1
      genesisFiveTwo genesisTwoFive.Accounts freshState
      (by decide) (by decide) (by decide) (by decide) (by decide) (by decide)⟩

/-! ## Bootstrap transactions -/

theorem deliverGenTxs_append {ρ : Type} (M : Modules ρ) :
    ∀ (pre rest : List Bytes) (s s' : AppState ρ),
      deliverGenTxs M pre s = .ok ((), s') →
      deliverGenTxs M (pre ++ rest) s = deliverGenTxs M rest s' := by
  intro pre
  induction pre with
  | nil =>
    intro rest s s' h
    simp only [deliverGenTxs, Except.ok.injEq, Prod.mk.injEq, true_and] at h
    simp [h]
  | cons genTx pre ih =>
    intro rest s s' h
    simp only [List.cons_append, deliverGenTxs] at h ⊢
    cases hu : M.unmarshalGenTx genTx with
    | error err => simp [hu] at h
    | ok tx =>
      simp only [hu] at h ⊢
      by_cases hok : (M.DeliverTx (M.marshalTx tx) s).1.IsOK = true
      · simp only [hok, if_true] at h ⊢
        exact ih rest _ s' h
      · simp [hok] at h

/-- C4: if the module stores fail to initialize, `initFromGenesisState` halts
before any bootstrap transaction is delivered. Otherwise, when the bootstrap
list is `pre ++ genTx :: suf`, every transaction of `pre` decodes and is
delivered OK (leaving the state `s'`) and `genTx` is the first that fails,
`initFromGenesisState` halts at `genTx`: with the decoding error and the state
`s'` if it does not decode, with the delivery log and the state its delivery
left if its result is not OK. No validator set is returned, and nothing of
`suf` is decoded or delivered. -/
theorem initFromGenesisState_halts_at_first_failing_genTx {ρ : Type} (M : Modules ρ)
    (sortSlice : (GenesisAccount → GenesisAccount → Bool) → List GenesisAccount → List GenesisAccount)
    (ctx : Context) (gs : GenesisState) (s : AppState ρ)
    (pre suf : List Bytes) (genTx : Bytes)
    (hsplit : gs.GenTxs = pre ++ genTx :: suf) :
    (∀ e, initModuleStores M ctx
          ({ gs with Accounts := sortSlice accountLess gs.Accounts } : GenesisState)
            ({ s with
            accountKeeper :=
              loadGenesisAccounts M.ToAccount (sortSlice accountLess gs.Accounts)
                s.accountKeeper } : AppState ρ) = .error e →
        initFromGenesisState M sortSlice ctx gs s = .error e) ∧
    (∀ (validators : List ValidatorUpdate) (s6 s' : AppState ρ),
      initModuleStores M ctx
          ({ gs with Accounts := sortSlice accountLess gs.Accounts } : GenesisState)
          ({ s with
            accountKeeper :=
              loadGenesisAccounts M.ToAccount (sortSlice accountLess gs.Accounts)
                s.accountKeeper } : AppState ρ) = .ok (validators, s6) →
      deliverGenTxs M pre s6 = .ok ((), s') →
      (∀ err, M.unmarshalGenTx genTx = .error err →
        initFromGenesisState M sortSlice ctx gs s = .error (.genTxUnmarshal err, s')) ∧
      (∀ tx, M.unmarshalGenTx genTx = .ok tx →
        (M.DeliverTx (M.marshalTx tx) s').1.IsOK = false →
        initFromGenesisState M sortSlice ctx gs s =
          .error (.genTxDeliver (M.DeliverTx (M.marshalTx tx) s').1.Log,
                  (M.DeliverTx (M.marshalTx tx) s').2))) := by
  constructor
  · intro e he
    simp only [initFromGenesisState, initFromLoadedAccounts, he]
  · intro validators s6 s' hstores hpre
    have hlen : (pre ++ genTx :: suf).length > 0 := by simp
    have hrun : deliverGenTxs M (pre ++ genTx :: suf) s6 = deliverGenTxs M (genTx :: suf) s' :=
      deliverGenTxs_append M pre (genTx :: suf) s6 s' hpre
    simp only [hsplit] at hstores
    constructor
    · intro err herr
      simp only [initFromGenesisState, initFromLoadedAccounts, hsplit, hstores, hlen, if_true,
        hrun, deliverGenTxs, herr]
    · intro tx htx hnotok
      simp [initFromGenesisState, initFromLoadedAccounts, hsplit, hstores,
        hrun, deliverGenTxs, htx, hnotok]

/-- C4 on the recording modules: of three bootstrap transactions the second is
rejected, resp. does not decode; the run halts there, the log showing the first
transaction delivered, the second attempted (resp. not), the third untouched. -/
theorem initFromGenesisState_halts_at_first_failing_genTx_witness :
    (genesisRejectedTx.GenTxs = [[1]] ++ [0, 5] :: [[2]] ∧
      genesisUndecodableTx.GenTxs = [[1]] ++ [] :: [[2]]) ∧
    initFromGenesisState recordingModules insertionSort_func ctx1 genesisRejectedTx freshState =
      .error (.genTxDeliver "rejected",
        ⟨AccountKeeper.fresh, storesLog ++ [.DeliverTx [1], .DeliverTx [0, 5]]⟩) ∧
    initFromGenesisState recordingModules insertionSort_func ctx1 genesisUndecodableTx freshState =
      .error (.genTxUnmarshal "empty transaction",
        ⟨AccountKeeper.fresh, storesLog ++ [.DeliverTx [1]]⟩) :=
  ⟨⟨rfl, rfl⟩,
    (((initFromGenesisState_halts_at_first_failing_genTx recordingModules insertionSort_func ctx1
        genesisRejectedTx freshState [[1]] [[2]] [0, 5] rfl).2
        [⟨"ed25519", [3], 1⟩] ⟨AccountKeeper.fresh, storesLog⟩
        ⟨AccountKeeper.fresh, storesLog ++ [HandlerCall.DeliverTx [1]]⟩ (by rfl) (by rfl)).2 ⟨[0, 5]⟩ (by rfl) (by rfl)),
    (((initFromGenesisState_halts_at_first_failing_genTx recordingModules insertionSort_func ctx1
        genesisUndecodableTx freshState [[1]] [[2]] [] rfl).2
        [⟨"ed25519", [3], 1⟩] ⟨AccountKeeper.fresh, storesLog⟩
        ⟨AccountKeeper.fresh, storesLog ++ [HandlerCall.DeliverTx [1]]⟩ (by rfl) (by rfl)).1 "empty transaction" (by rfl))⟩

/-! ## The sanity check of the initial validator set -/

/-- The comparison loop either finds every position equal and returns, or
halts at the first position that differs. -/
theorem compareValidators_cases (R : List ValidatorUpdate) :
    ∀ (V : List ValidatorUpdate) (i : Nat),
      (compareValidators R i V = .ok () ∧ ∀ j, j < V.length → R[i + j]? = V[j]?) ∨
      (∃ j, j < V.length ∧ R[i + j]? ≠ V[j]? ∧
        (compareValidators R i V = .error (.validatorMismatch (i + j)) ∨
          (compareValidators R i V = .error (.indexOutOfRange (i + j)) ∧ R[i + j]? = none))) := by
  intro V
  induction V with
  | nil => intro i; left; simp [compareValidators]
  | cons val rest ih =>
    intro i
    cases hR : R[i]? with
    | none =>
      right
      refine ⟨0, by simp, by simp [hR], Or.inr ⟨by simp [compareValidators, hR], by simpa using hR⟩⟩
    | some r =>
      by_cases hval : val = r
      · rcases ih (i + 1) with ⟨hok, hall⟩ | ⟨j, hj, hne, hres⟩
        · left
          refine ⟨by simp [compareValidators, hR, hval, hok], ?_⟩
          intro j hj
          cases j with
          | zero => simp [hR, hval]
          | succ j =>
            have := hall j (by simpa using hj)
            simpa [Nat.add_assoc, Nat.add_comm 1 j] using this
        · right
          refine ⟨j + 1, by simpa using hj, ?_, ?_⟩
          · simpa [Nat.add_assoc, Nat.add_comm 1 j] using hne
          · have e : i + (j + 1) = i + 1 + j := by omega
            rw [e]
            simpa [compareValidators, hR, hval] using hres
      · right
        refine ⟨0, by simp, ?_, Or.inl (by simp [compareValidators, hR, hval])⟩
        simp only [Nat.add_zero, hR, List.getElem?_cons_zero, ne_eq, Option.some.injEq]
        exact fun h => hval h.symm

/-- C3: once the genesis state is decoded and `initFromGenesisState` has given
the derived validators `D` and the state `s1`, the sanity check of `initChainer`
against the expected validators `E` of the request halts if and only if `E` is
non-empty and either the lengths differ or, after sorting both, some position
`i` has `D[i] ≠ E[i]`; the halt is then the count panic or the mismatch panic
at such a position. In every other case `initChainer` goes on to the invariant
check and, if it passes, returns the derived validators (as the check left the
slice: untouched when `E` is empty, sorted otherwise). -/
theorem initChainer_sanity_check {ρ : Type} (M : Modules ρ)
    (sortSlice : (GenesisAccount → GenesisAccount → Bool) → List GenesisAccount → List GenesisAccount)
    (sortValidators : List ValidatorUpdate → List ValidatorUpdate)
    (ctx : Context) (req : RequestInitChain) (s : AppState ρ)
    (gs : GenesisState) (D : List ValidatorUpdate) (s1 : AppState ρ)
    (hlenE : (sortValidators req.Validators).length = req.Validators.length)
    (hlenD : (sortValidators D).length = D.length)
    (hgs : M.unmarshalGenesisState req.AppStateBytes = .ok gs)
    (hinit : initFromGenesisState M sortSlice ctx gs s = .ok (D, s1)) :
    ((∃ p, sanityCheck sortValidators req.Validators D = .error p) ↔
      (req.Validators ≠ [] ∧
        (req.Validators.length ≠ D.length ∨
          ∃ i, i < D.length ∧ (sortValidators D)[i]? ≠ (sortValidators req.Validators)[i]?))) ∧
    ((req.Validators ≠ [] ∧
        (req.Validators.length ≠ D.length ∨
          ∃ i, i < D.length ∧ (sortValidators D)[i]? ≠ (sortValidators req.Validators)[i]?)) →
      ∃ p, initChainer M sortSlice sortValidators ctx req s = .error (p, s1) ∧
        (p = .validatorCount req.Validators.length D.length ∨
          ∃ i, p = .validatorMismatch i ∧ i < D.length ∧
            (sortValidators D)[i]? ≠ (sortValidators req.Validators)[i]?)) ∧
    (¬ (req.Validators ≠ [] ∧
        (req.Validators.length ≠ D.length ∨
          ∃ i, i < D.length ∧ (sortValidators D)[i]? ≠ (sortValidators req.Validators)[i]?)) →
      initChainer M sortSlice sortValidators ctx req s =
        match M.runtimeInvariants s1 with
        | some err => .error (.invariantBroken err, s1)
        | none =>
          .ok ({ Validators := if req.Validators = [] then D else sortValidators D }, s1)) := by
  have hchain : initChainer M sortSlice sortValidators ctx req s =
      match sanityCheck sortValidators req.Validators D with
      | .error p => .error (p, s1)
      | .ok validators =>
        match M.runtimeInvariants s1 with
        | some err => .error (.invariantBroken err, s1)
        | none => .ok ({ Validators := validators }, s1) := by
    simp only [initChainer, hgs, hinit, assertRuntimeInvariants]
    cases sanityCheck sortValidators req.Validators D with
    | error p => rfl
    | ok v => cases M.runtimeInvariants s1 <;> rfl
  -- the three outcomes of the check
  have hcheck :
      (req.Validators = [] ∧ sanityCheck sortValidators req.Validators D = .ok D) ∨
      (req.Validators ≠ [] ∧ req.Validators.length ≠ D.length ∧
        sanityCheck sortValidators req.Validators D =
          .error (.validatorCount req.Validators.length D.length)) ∨
      (req.Validators ≠ [] ∧ req.Validators.length = D.length ∧
        ((sanityCheck sortValidators req.Validators D = .ok (sortValidators D) ∧
            ∀ j, j < D.length → (sortValidators req.Validators)[j]? = (sortValidators D)[j]?) ∨
          ∃ j, j < D.length ∧ (sortValidators req.Validators)[j]? ≠ (sortValidators D)[j]? ∧
            sanityCheck sortValidators req.Validators D = .error (.validatorMismatch j))) := by
    by_cases hE : req.Validators = []
    · left; exact ⟨hE, by simp [sanityCheck, hE]⟩
    · right
      have hpos : req.Validators.length > 0 := List.length_pos.mpr hE
      by_cases hlen : req.Validators.length = D.length
      · right
        refine ⟨hE, hlen, ?_⟩
        have hdef : sanityCheck sortValidators req.Validators D =
            match compareValidators (sortValidators req.Validators) 0 (sortValidators D) with
            | .error p => .error p
            | .ok _ => .ok (sortValidators D) := by
          unfold sanityCheck
          rw [if_pos hpos, if_neg (not_not.mpr hlen)]
        rcases compareValidators_cases (sortValidators req.Validators) (sortValidators D) 0 with
          ⟨hok, hall⟩ | ⟨j, hj, hne, hres⟩
        · left
          refine ⟨by rw [hdef, hok], ?_⟩
          intro j hj
          simpa using hall j (by omega)
        · right
          refine ⟨j, by omega, by simpa using hne, ?_⟩
          rcases hres with hmis | ⟨_, hnone⟩
          · rw [hdef, hmis, Nat.zero_add]
          · exfalso
            simp only [Nat.zero_add] at hnone
            rw [List.getElem?_eq_none_iff] at hnone
            omega
      · left
        refine ⟨hE, hlen, ?_⟩
        unfold sanityCheck
        rw [if_pos hpos, if_pos hlen]
  rcases hcheck with ⟨hE, hres⟩ | ⟨hE, hlen, hres⟩ | ⟨hE, hlen, ⟨hres, hall⟩ | ⟨j, hj, hne, hres⟩⟩
  · refine ⟨?_, ?_, ?_⟩
    · constructor
      · rintro ⟨p, hp⟩
        rw [hres] at hp
        cases hp
      · intro h; exact absurd hE h.1
    · intro h; exact absurd hE h.1
    · intro _; rw [hchain, hres]; simp [hE]
  · refine ⟨?_, ?_, ?_⟩
    · constructor
      · intro _; exact ⟨hE, Or.inl hlen⟩
      · intro _; exact ⟨_, hres⟩
    · intro _; exact ⟨_, by rw [hchain, hres], Or.inl rfl⟩
    · intro h; exact absurd ⟨hE, Or.inl hlen⟩ h
  · have hno : ¬ ∃ i, i < D.length ∧
        (sortValidators D)[i]? ≠ (sortValidators req.Validators)[i]? := by
      rintro ⟨i, hi, hne⟩
      exact hne (hall i hi).symm
    have hcond : ¬ (req.Validators ≠ [] ∧
        (req.Validators.length ≠ D.length ∨
          ∃ i, i < D.length ∧
            (sortValidators D)[i]? ≠ (sortValidators req.Validators)[i]?)) := by
      rintro ⟨_, h | h⟩
      · exact h hlen
      · exact hno h
    refine ⟨?_, ?_, ?_⟩
    · constructor
      · rintro ⟨p, hp⟩
        rw [hres] at hp
        cases hp
      · intro h; exact absurd h hcond
    · intro h; exact absurd h hcond
    · intro _; rw [hchain, hres]; simp [hE]
  · refine ⟨?_, ?_, ?_⟩
    · constructor
      · intro _; exact ⟨hE, Or.inr ⟨j, hj, fun h => hne h.symm⟩⟩
      · intro _; exact ⟨_, hres⟩
    · intro _
      exact ⟨_, by rw [hchain, hres], Or.inr ⟨j, rfl, hj, fun h => hne h.symm⟩⟩
    · intro h; exact absurd ⟨hE, Or.inr ⟨j, hj, fun h => hne h.symm⟩⟩ h

/-- C3 on the recording modules: a matching expected set passes the check and
the derived validator is returned; a different expected validator halts with a
mismatch at position 0; an expected set of another size halts on the count. -/
theorem initChainer_sanity_check_witness :
    (recordingModules.unmarshalGenesisState requestMatching.AppStateBytes = .ok decodedGenesis ∧
      initFromGenesisState recordingModules insertionSort_func ctx1 decodedGenesis freshState =
        .ok ([derivedValidator], initializedState)) ∧
    initChainer recordingModules insertionSort_func (insertionSort_func validatorLess) ctx1
        requestMatching freshState = .ok (⟨[derivedValidator]⟩, initializedState) ∧
    (∃ p, initChainer recordingModules insertionSort_func (insertionSort_func validatorLess) ctx1
        requestMismatching freshState = .error (p, initializedState) ∧
      (p = .validatorCount 1 1 ∨
        ∃ i, p = .validatorMismatch i ∧ i < 1 ∧
          (insertionSort_func validatorLess [derivedValidator])[i]? ≠
            (insertionSort_func validatorLess requestMismatching.Validators)[i]?)) ∧
    ((∃ p, sanityCheck (insertionSort_func validatorLess) requestTooMany.Validators
        [derivedValidator] = .error p) ↔
      (requestTooMany.Validators ≠ [] ∧
        (requestTooMany.Validators.length ≠ [derivedValidator].length ∨
          ∃ i, i < [derivedValidator].length ∧
            (insertionSort_func validatorLess [derivedValidator])[i]? ≠
              (insertionSort_func validatorLess requestTooMany.Validators)[i]?))) :=
  ⟨⟨by rfl, by rfl⟩,
    (initChainer_sanity_check recordingModules insertionSort_func
      (insertionSort_func validatorLess) ctx1 requestMatching freshState decodedGenesis
      [derivedValidator] initializedState (by rfl) (by rfl) (by rfl) (by rfl)).2.2 (by decide),
    (initChainer_sanity_check recordingModules insertionSort_func
      (insertionSort_func validatorLess) ctx1 requestMismatching freshState decodedGenesis
      [derivedValidator] initializedState (by rfl) (by rfl) (by rfl) (by rfl)).2.1 (by decide),
    (initChainer_sanity_check recordingModules insertionSort_func
      (insertionSort_func validatorLess) ctx1 requestTooMany freshState decodedGenesis
      [derivedValidator] initializedState (by rfl) (by rfl) (by rfl) (by rfl)).1⟩

/-! ## Staking hooks -/

/-- C5: for each of the nine hooks and every argument tuple, a call on the
combinator is the distribution hook of the same name followed by the slashing
hook of the same name on the state the first left, both with the arguments
received; with recording keepers registered as in `NewGaiaApp`, the call adds
to the log exactly two entries, distribution first and slashing second, each
being the very invocation the combinator received. -/
theorem stakingHooks_calls_distribution_then_slashing :
    (∀ (σ : Type) (dh sh : Hooks σ) (c : HookCall) (s : σ),
      (NewStakingHooks dh sh).call c s = sh.call c (dh.call c s)) ∧
    (∀ (c : HookCall) (log : List (SubHook × HookCall)),
      registeredRecordingHooks.call c log =
        log ++ [(SubHook.distribution, c), (SubHook.slashing, c)]) := by
  constructor
  · intro σ dh sh c s
    cases c <;> rfl
  · intro c log
    cases c <;>
      simp [registeredRecordingHooks, NewStakingHooks, StakingHooks.call, recordingHooks,
        StakingHooks.PostValidatorCreated, StakingHooks.PostValidatorModified,
        StakingHooks.PostValidatorRemoved, StakingHooks.PostValidatorBonded,
        StakingHooks.PostValidatorPowerDidChange, StakingHooks.PostValidatorBeginUnbonding,
        StakingHooks.PostDelegationCreated, StakingHooks.PostDelegationSharesModified,
        StakingHooks.PostDelegationRemoved]

/-! ## Begin block and end block -/

/-- C6: the tags of the response of `BeginBlocker` are the tags of the mint
handler, followed by those of the distribution handler, followed by those of
the slashing handler run on the state the first two left. The mint and
distribution calls hand no tags back, so their parts are empty and the response
carries exactly the slashing tags, whatever list (the empty one included) the
slashing handler returns. -/
theorem beginBlocker_tags_concatenation {ρ : Type} (M : Modules ρ) (ctx : Context)
    (req : RequestBeginBlock) (s : AppState ρ) :
    (BeginBlocker M ctx req s).1.Tags =
      Tags.ToKVPairs
        (mintBeginBlockerTags ++ distrBeginBlockerTags ++
          (M.slashingBeginBlocker ctx req
            (M.distrBeginBlocker ctx req (M.mintBeginBlocker ctx s))).1) ∧
    (BeginBlocker M ctx req s).1.Tags =
      (M.slashingBeginBlocker ctx req
        (M.distrBeginBlocker ctx req (M.mintBeginBlocker ctx s))).1 ∧
    (∀ t : Tags,
      (BeginBlocker
          { M with slashingBeginBlocker := fun c r x => (t, (M.slashingBeginBlocker c r x).2) }
          ctx req s).1.Tags =
        Tags.ToKVPairs (mintBeginBlockerTags ++ distrBeginBlockerTags ++ t)) := by
  refine ⟨?_, ?_, ?_⟩
  · simp [BeginBlocker, mintBeginBlockerTags, distrBeginBlockerTags]
  · simp [BeginBlocker, Tags.ToKVPairs]
  · intro t
    simp [BeginBlocker, mintBeginBlockerTags, distrBeginBlockerTags]

/-- C8: `BeginBlocker` leaves the state that the slashing handler leaves when
run on the state the distribution handler leaves when run on the state the mint
handler leaves from the initial state; with recording modules the log grows by
exactly three calls, mint, distribution, slashing, in that order. -/
theorem beginBlocker_runs_mint_distr_slashing :
    (∀ (ρ : Type) (M : Modules ρ) (ctx : Context) (req : RequestBeginBlock) (s : AppState ρ),
      (BeginBlocker M ctx req s).2 =
        (M.slashingBeginBlocker ctx req
          (M.distrBeginBlocker ctx req (M.mintBeginBlocker ctx s))).2) ∧
    (∀ (ctx : Context) (req : RequestBeginBlock) (s : AppState (List HandlerCall)),
      (BeginBlocker recordingModules ctx req s).2 =
        { s with rest := s.rest ++ [HandlerCall.mintBeginBlocker ctx,
                                    HandlerCall.distrBeginBlocker ctx req,
                                    HandlerCall.slashingBeginBlocker ctx req] }) := by
  constructor
  · intro ρ M ctx req s
    rfl
  · intro ctx req s
    simp [BeginBlocker, recordingModules, logCall]

/-- C7: `EndBlocker` runs the governance handler, then the staking handler on
the state governance left, then the invariant check on the state staking left.
If the check fails it halts there with no response; otherwise the response has
the staking handler's validator updates and the governance tags followed by the
staking tags. -/
theorem endBlocker_checks_invariants {ρ : Type} (M : Modules ρ) (ctx : Context)
    (req : RequestEndBlock) (s : AppState ρ) :
    (∀ err, M.runtimeInvariants (M.stakeEndBlocker ctx (M.govEndBlocker ctx s).2).2 = some err →
      EndBlocker M ctx req s =
        .error (.invariantBroken err, (M.stakeEndBlocker ctx (M.govEndBlocker ctx s).2).2)) ∧
    (M.runtimeInvariants (M.stakeEndBlocker ctx (M.govEndBlocker ctx s).2).2 = none →
      EndBlocker M ctx req s =
        .ok ({ ValidatorUpdates := (M.stakeEndBlocker ctx (M.govEndBlocker ctx s).2).1.1,
               Tags := (M.govEndBlocker ctx s).1 ++
                        (M.stakeEndBlocker ctx (M.govEndBlocker ctx s).2).1.2 },
             (M.stakeEndBlocker ctx (M.govEndBlocker ctx s).2).2)) := by
  constructor
  · intro err h
    simp [EndBlocker, assertRuntimeInvariants, h]
  · intro h
    simp [EndBlocker, assertRuntimeInvariants, h]

/-- C7 on the recording modules: from a sound state the response carries the
staking update and the tags of governance then staking; from a state with
corrupted bookkeeping `EndBlocker` halts on the invariant. -/
theorem endBlocker_checks_invariants_witness :
    EndBlocker recordingModules ctx1 ⟨1⟩ freshState =
      .ok (⟨[⟨"ed25519", [7], 10⟩], [govTag, stakeTag]⟩,
        ⟨AccountKeeper.fresh, [HandlerCall.govEndBlocker ctx1, HandlerCall.stakeEndBlocker ctx1]⟩) ∧
    EndBlocker recordingModules ctx1 ⟨1⟩ corruptedState =
      .error (.invariantBroken "account number behind the accounts written",
        ⟨corruptedState.accountKeeper,
          [HandlerCall.govEndBlocker ctx1, HandlerCall.stakeEndBlocker ctx1]⟩) :=
  ⟨(endBlocker_checks_invariants recordingModules ctx1 ⟨1⟩ freshState).2 (by rfl),
    (endBlocker_checks_invariants recordingModules ctx1 ⟨1⟩ corruptedState).1 _ (by rfl)⟩

/-! ## Slashing periods -/

theorem closeOpenPeriods_of_no_period (V : ConsAddress) (h : Int) (t : SlashingPeriods)
    (hnone : ∀ p ∈ t, p.ValidatorAddr ≠ V) : closeOpenPeriods V h t = t := by
  unfold closeOpenPeriods
  conv_rhs => rw [← List.map_id t]
  apply List.map_congr_left
  intro p hp
  simp [hnone p hp]

theorem filter_of_no_period (V : ConsAddress) (t : SlashingPeriods)
    (hnone : ∀ p ∈ t, p.ValidatorAddr ≠ V) :
    t.filter (fun p => p.ValidatorAddr == V) = [] := by
  rw [List.filter_eq_nil_iff]
  intro p hp
  simpa using hnone p hp

/-- The periods of `V` after bonding at `h1` and beginning to unbond at `h2`,
from a tracker without a period of `V`: the single period `(V, h1, h2, 0)`. -/
theorem periods_after_bond_unbond (ctxB ctxU : Context) (V : ConsAddress) (va : ValAddress)
    (t : SlashingPeriods) (hnone : ∀ p ∈ t, p.ValidatorAddr ≠ V) :
    (postValidatorBeginUnbonding ctxU V va (postValidatorBonded ctxB V va t)).filter
        (fun p => p.ValidatorAddr == V) =
      [⟨V, ctxB.BlockHeight, ctxU.BlockHeight, 0⟩] := by
  simp only [postValidatorBeginUnbonding, postValidatorBonded, closePeriod, openPeriod,
    closeOpenPeriods_of_no_period V _ t hnone]
  simp only [closeOpenPeriods, List.map_append, List.filter_append]
  have h1 : (t.map (fun p => if p.ValidatorAddr = V ∧ p.isOpen = true
      then { p with EndHeight := ctxU.BlockHeight } else p)) = t := by
    conv_rhs => rw [← List.map_id t]
    apply List.map_congr_left
    intro p hp
    simp [hnone p hp]
  rw [h1, filter_of_no_period V t hnone]
  simp [ValidatorSlashingPeriod.isOpen]

/-- C9: from a tracker that holds no slashing period for `V`, after
`postValidatorBonded` for `V` in a context at height `h` the query
`getValidatorSlashingPeriodForHeight(V, h)` returns exactly the period
`(V, h, 0, 0)`: start `h`, end 0 meaning open, nothing slashed so far. The
end-exclusive `periodAt` of the spec returns the same period. -/
theorem bonded_opens_period (ctx : Context) (V : ConsAddress) (va : ValAddress)
    (t : SlashingPeriods) (hnone : ∀ p ∈ t, p.ValidatorAddr ≠ V) :
    getValidatorSlashingPeriodForHeight ctx V ctx.BlockHeight (postValidatorBonded ctx V va t) =
      some ⟨V, ctx.BlockHeight, 0, 0⟩ ∧
    periodAt V ctx.BlockHeight (postValidatorBonded ctx V va t) =
      some ⟨V, ctx.BlockHeight, 0, 0⟩ := by
  constructor
  · simp only [getValidatorSlashingPeriodForHeight, postValidatorBonded, openPeriod,
      closeOpenPeriods_of_no_period V _ t hnone, List.filter_append,
      filter_of_no_period V t hnone]
    simp
  · simp only [periodAt, postValidatorBonded, openPeriod,
      closeOpenPeriods_of_no_period V _ t hnone, List.filter_append,
      filter_of_no_period V t hnone]
    simp [ValidatorSlashingPeriod.covers, ValidatorSlashingPeriod.isOpen]

/-- C9 at validator `[1]`, height 10, with a period of another validator
already in the tracker. -/
theorem bonded_opens_period_witness :
    (∀ p ∈ otherValidatorPeriods, p.ValidatorAddr ≠ [1]) ∧
    (getValidatorSlashingPeriodForHeight ctx10 [1] ctx10.BlockHeight
        (postValidatorBonded ctx10 [1] [] otherValidatorPeriods) =
      some ⟨[1], ctx10.BlockHeight, 0, 0⟩ ∧
    periodAt [1] ctx10.BlockHeight (postValidatorBonded ctx10 [1] [] otherValidatorPeriods) =
      some ⟨[1], ctx10.BlockHeight, 0, 0⟩) :=
  ⟨by decide, bonded_opens_period ctx10 [1] [] otherValidatorPeriods (by decide)⟩

/-- C10: from a tracker that holds no slashing period for `V`, after
`postValidatorBonded` for `V` at height `h1` and `postValidatorBeginUnbonding`
for `V` at height `h2`, the query `getValidatorSlashingPeriodForHeight(V, h1)`
returns exactly the period `(V, h1, h2, 0)`. This holds for all heights, so for
all `h1 ≤ h2` and in particular for `h1 = h2`, where the query height equals
the end height. -/
theorem unbonding_closes_period (ctxB ctxU : Context) (V : ConsAddress) (va : ValAddress)
    (t : SlashingPeriods) (hnone : ∀ p ∈ t, p.ValidatorAddr ≠ V) :
    getValidatorSlashingPeriodForHeight ctxU V ctxB.BlockHeight
        (postValidatorBeginUnbonding ctxU V va (postValidatorBonded ctxB V va t)) =
      some ⟨V, ctxB.BlockHeight, ctxU.BlockHeight, 0⟩ := by
  simp only [getValidatorSlashingPeriodForHeight,
    periods_after_bond_unbond ctxB ctxU V va t hnone]
  simp

/-- C10 at the case of the test, bonding and unbonding at the same height 5
(with a period of another validator in the tracker), and at the scenario of
the spec, bonding at 10 and unbonding at 50. -/
theorem unbonding_closes_period_witness :
    (∀ p ∈ otherValidatorPeriods, p.ValidatorAddr ≠ [1]) ∧
    getValidatorSlashingPeriodForHeight ctx5 [1] ctx5.BlockHeight
        (postValidatorBeginUnbonding ctx5 [1] [1]
          (postValidatorBonded ctx5 [1] [1] otherValidatorPeriods)) =
      some ⟨[1], ctx5.BlockHeight, ctx5.BlockHeight, 0⟩ ∧
    getValidatorSlashingPeriodForHeight ctx50 [1] ctx10.BlockHeight
        (postValidatorBeginUnbonding ctx50 [1] [1]
          (postValidatorBonded ctx10 [1] [1] otherValidatorPeriods)) =
      some ⟨[1], ctx10.BlockHeight, ctx50.BlockHeight, 0⟩ :=
  ⟨by decide,
    unbonding_closes_period ctx5 ctx5 [1] [1] otherValidatorPeriods (by decide),
    unbonding_closes_period ctx10 ctx50 [1] [1] otherValidatorPeriods (by decide)⟩

/-- The end-exclusive `periodAt` after bonding at `h1` and beginning to unbond
at `h2`: the query at `h1` returns the period `(V, h1, h2, 0)` exactly when
that period covers `h1`, that is when `h1 < h2` or `h2 = 0`, and no period
otherwise. -/
theorem periodAt_after_bond_unbond (ctxB ctxU : Context) (V : ConsAddress) (va : ValAddress)
    (t : SlashingPeriods) (hnone : ∀ p ∈ t, p.ValidatorAddr ≠ V) :
    periodAt V ctxB.BlockHeight
        (postValidatorBeginUnbonding ctxU V va (postValidatorBonded ctxB V va t)) =
      if ctxU.BlockHeight = 0 ∨ ctxB.BlockHeight < ctxU.BlockHeight
      then some ⟨V, ctxB.BlockHeight, ctxU.BlockHeight, 0⟩ else none := by
  simp only [periodAt, periods_after_bond_unbond ctxB ctxU V va t hnone]
  simp [ValidatorSlashingPeriod.covers, ValidatorSlashingPeriod.isOpen]

/-- Where the end-exclusive `periodAt` and the keeper's query part: bonded and
unbonding at the same height 5, the tracker holds the period `([1], 5, 5, 0)`;
`periodAt` at height 5 finds no period, the keeper's query returns the closed
period, as the hook test requires. -/
theorem periodAt_excludes_end_height :
    postValidatorBeginUnbonding ctx5 [1] [1] (postValidatorBonded ctx5 [1] [] []) =
      [⟨[1], 5, 5, 0⟩] ∧
    periodAt [1] 5
        (postValidatorBeginUnbonding ctx5 [1] [1] (postValidatorBonded ctx5 [1] [] [])) = none ∧
    getValidatorSlashingPeriodForHeight ctx5 [1] 5
        (postValidatorBeginUnbonding ctx5 [1] [1] (postValidatorBonded ctx5 [1] [] [])) =
      some ⟨[1], 5, 5, 0⟩ := by
  decide

/-- The first end-to-end scenario on the end-exclusive `periodAt`: bonded at 10
and unbonding at 50, the query at 10 returns the period from 10 to 50 and the
query at 60 returns no period. -/
theorem scenario_bond_10_unbond_50 :
    periodAt [1] 10
        (postValidatorBeginUnbonding ctx50 [1] [1] (postValidatorBonded ctx10 [1] [] [])) =
      some ⟨[1], 10, 50, 0⟩ ∧
    periodAt [1] 60
        (postValidatorBeginUnbonding ctx50 [1] [1] (postValidatorBonded ctx10 [1] [] [])) = none := by
  decide

/-! ## The library's insertion sort meets the contract assumed of `sort.Slice` -/

theorem sinkLeft_perm {α : Type} (less : α → α → Bool) (x : α) :
    ∀ l : List α, (sinkLeft less x l).Perm (x :: l) := by
  intro l
  induction l with
  | nil => simp [sinkLeft]
  | cons p ps ih =>
    by_cases h : less x p = true
    · simp only [sinkLeft, h, if_true]
      exact (List.Perm.cons p ih).trans (List.Perm.swap x p ps)
    · simp [sinkLeft, h]

theorem foldl_sinkLeft_perm {α : Type} (less : α → α → Bool) :
    ∀ (l acc : List α),
      (l.foldl (fun acc x => sinkLeft less x acc) acc).Perm (l.reverse ++ acc) := by
  intro l
  induction l with
  | nil => intro acc; simp
  | cons x xs ih =>
    intro acc
    simp only [List.foldl_cons, List.reverse_cons, List.append_assoc, List.singleton_append]
    exact (ih _).trans (List.Perm.append_left _ (sinkLeft_perm less x acc))

theorem insertionSort_func_perm {α : Type} (less : α → α → Bool) (l : List α) :
    (insertionSort_func less l).Perm l := by
  unfold insertionSort_func
  refine (List.reverse_perm _).trans ?_
  have h := foldl_sinkLeft_perm less l []
  simp only [List.append_nil] at h
  exact h.trans (List.reverse_perm l)

theorem sinkLeft_descending (x : GenesisAccount) :
    ∀ l : List GenesisAccount,
      l.Pairwise (fun a b => b.AccountNumber ≤ a.AccountNumber) →
      (sinkLeft accountLess x l).Pairwise (fun a b => b.AccountNumber ≤ a.AccountNumber) := by
  intro l
  induction l with
  | nil => intro _; simp [sinkLeft]
  | cons p ps ih =>
    intro hl
    rw [List.pairwise_cons] at hl
    by_cases h : x.AccountNumber < p.AccountNumber
    · simp only [sinkLeft, accountLess, h, decide_True, if_true]
      rw [List.pairwise_cons]
      refine ⟨?_, ih hl.2⟩
      intro b hb
      rcases (List.mem_cons.mp ((sinkLeft_perm accountLess x ps).subset hb)) with rfl | hb
      · exact h.le
      · exact hl.1 b hb
    · simp only [sinkLeft, accountLess, h, decide_False, Bool.false_eq_true, if_false]
      rw [List.pairwise_cons, List.pairwise_cons]
      refine ⟨?_, hl⟩
      intro b hb
      rcases List.mem_cons.mp hb with rfl | hb
      · exact not_lt.mp h
      · exact (hl.1 b hb).trans (not_lt.mp h)

theorem insertionSort_func_sorted (l : List GenesisAccount) :
    SortedByAccountNumber (insertionSort_func accountLess l) := by
  unfold SortedByAccountNumber insertionSort_func
  rw [List.pairwise_reverse]
  have : ∀ (l acc : List GenesisAccount),
      acc.Pairwise (fun a b => b.AccountNumber ≤ a.AccountNumber) →
      (l.foldl (fun acc x => sinkLeft accountLess x acc) acc).Pairwise
        (fun a b => b.AccountNumber ≤ a.AccountNumber) := by
    intro l
    induction l with
    | nil => intro acc h; simpa using h
    | cons x xs ih =>
      intro acc h
      simp only [List.foldl_cons]
      exact ih _ (sinkLeft_descending x acc h)
  exact this l [] List.Pairwise.nil

end Gaia
